import Mathlib

/-!
# Verification of the unitas parser-combinator engine

Shallow embedding of the combinator engine of the `unitas` repository
(TypeScript) and proofs of the specification claims about it.

Modelling conventions:
* A JS string is modelled as a `List Char` (`Input`).
* `ParseResult<T> = Success<T> | Failure` (a pair or `null`) is modelled as
  `Option (T × Input)`; `null` is `none`.
* A `Parser<T>` is a function `Input → Option (T × Input)`, exactly as in
  `src/types.ts`.
* `while (true)` loops in the source are modelled with an explicit fuel
  parameter; running out of fuel yields `none` and marks the states in which
  the JS loop would still be running.  The public wrappers pass
  `input.length + 1` fuel, which is enough for every parser that only ever
  returns suffixes of its input (all parsers of the library do), so on those
  parsers the fuelled model and the source agree step for step.
* A `throw` at construction time (`char`, `regex` in `terminals.ts`) is
  modelled as `Except.error` with the thrown message.
-/

namespace Unitas

/-- A JS string, viewed as its list of characters. -/
abbrev Input := List Char

/-- Shorthand to write concrete inputs. -/
def str (s : String) : Input := s.toList

/-- `Parser<T>` from `src/types.ts`: `(input: string) => Result<T>` where
`Result<T> = [T, string] | null`. -/
abbrev Parser (α : Type) := Input → Option (α × Input)

/-! ## Result protocol (`results.ts` / `core.ts`) -/

/-- `success(value, remaining)` from `results.ts`. -/
def success (v : α) (remaining : Input) : Option (α × Input) := some (v, remaining)

/-- `failure()` from `results.ts`. -/
def failure : Option (α × Input) := none

/-- `fail()` from `results.ts`: a parser that always fails. -/
def failP : Parser α := fun _ => failure

/-! ## Primitive constructors (`core.ts` / `terminals.ts`) -/

/-- `literal(str)` from `core.ts` line 41: succeeds iff the input starts with
`s`, consuming exactly `s` and returning `s` itself. -/
def literal (s : Input) : Parser Input := fun input =>
  if input.take s.length = s then success s (input.drop s.length) else failure

/-- The parser built by a successfully constructed `char(c)` (`core.ts`
line 51 / the `ok` branch of `terminals.ts` `char`) for a single character
`c`: matches exactly that first character. -/
def charOk (c : Char) : Parser Char := fun input =>
  match input with
  | [] => failure
  | x :: rest => if x = c then success x rest else failure

/-- `char(expected)` from `terminals.ts` lines 30-40 with its construction-time
validation: a multi-character argument throws
`'char expects one character, but got ' + expected`; otherwise the returned
parser matches iff the first input character equals `expected`. -/
def charCons (expected : Input) : Except String (Parser Input) :=
  if expected.length > 1 then
    Except.error ("char expects one character, but got " ++ String.mk expected)
  else
    Except.ok (fun input =>
      match input with
      | [] => failure
      | c :: rest => if [c] = expected then success expected rest else failure)

/-- A JS `RegExp` value, abstracted to what the engine observes of it: its
`global` flag and its match function `find`, returning the match index and the
matched text (JS `input.match(pattern)` with `match.index`). -/
structure RegExpM where
  global : Bool
  find : Input → Option (Nat × Input)

/-- `regex(pattern)` from `terminals.ts` lines 12-24 with its construction-time
validation: a pattern with the `global` flag throws
`'Global flag is not supported in regex parsers'`; otherwise the parser
succeeds iff the pattern matches at index 0, consuming the matched text. -/
def regexCons (pattern : RegExpM) : Except String (Parser Input) :=
  if pattern.global then
    Except.error "Global flag is not supported in regex parsers"
  else
    Except.ok (fun input =>
      match pattern.find input with
      | some (i, m) => if i = 0 then success m (input.drop m.length) else failure
      | none => failure)

/-- True iff an `Except` is in the `ok` branch. -/
def isOkE : Except ε α → Bool
  | Except.ok _ => true
  | Except.error _ => false

/-- `eof` from `primitives.ts` line 46: succeeds with value `null` on empty
input only.  The JS value `null` is modelled as `none` in an `Option`-typed
parser value. -/
def eof : Parser (Option α) := fun input =>
  if input.length = 0 then success none input else failure

/-- `naturalNumber` from `primitives.ts` lines 66-70: the regex `/^[0-9]+/`
matches the longest nonempty prefix of decimal digits, and `parseInt` reads it
in base 10 (`natOfDigits`). -/
def natOfDigits (ds : List Char) : Nat :=
  ds.foldl (fun acc c => acc * 10 + (c.toNat - '0'.toNat)) 0

def naturalNumber : Parser Nat := fun input =>
  let ds := input.takeWhile Char.isDigit
  if ds.isEmpty then failure
  else success (natOfDigits ds) (input.drop ds.length)

/-! ## Combinator algebra (`combinators.ts`) -/

/-- `map(parser, transform)` from `combinators.ts` (single-transform case of
the variadic `map`). -/
def mapP (p : Parser α) (f : α → β) : Parser β := fun input =>
  match p input with
  | none => failure
  | some (v, remaining) => success (f v) remaining

/-- `choice(...parsers)` from `combinators.ts` lines 35-46: first success wins,
each parser is tried on the original input. -/
def choice (ps : List (Parser α)) : Parser α := fun input =>
  match ps with
  | [] => failure
  | p :: rest =>
    match p input with
    | some r => some r
    | none => choice rest input

/-- `sequence(parserA, parserB)` from `combinators.ts` lines 5-24,
specialised to two parsers: thread the remaining input, short-circuit on the
first failure, return the pair of values. -/
def seq2 (p : Parser α) (q : Parser β) : Parser (α × β) := fun input =>
  match p input with
  | none => failure
  | some (a, r1) =>
    match q r1 with
    | none => failure
    | some (b, r2) => success (a, b) r2

/-! ## Top-level entry point (`core.ts` `parse`) -/

/-- The character class trimmed by JS `String.prototype.trim` (the ASCII part;
the claims only exercise the space character). -/
def isJsSpace (c : Char) : Bool :=
  c = ' ' || c = '\t' || c = '\n' || c = '\r' || c = '\x0b' || c = '\x0c'

/-- JS `remaining.trim()`: drop leading and trailing whitespace. -/
def trimJs (l : Input) : Input :=
  ((l.dropWhile isJsSpace).reverse.dropWhile isJsSpace).reverse

/-- `parse(parser, input)` from `core.ts` lines 4-10: run the parser; on
failure return `null`; otherwise return the value iff the remaining input
trims to the empty string, else `null`.  (Instantiation at a value type not
containing `null`, so the `T | null` return is `Option α`.) -/
def parse (p : Parser α) (input : Input) : Option α :=
  match p input with
  | none => none
  | some (v, remaining) => if trimJs remaining = [] then some v else none

/-- `parse(parser, input)` from `core.ts` lines 4-10 instantiated at a
nullable value type `T = α | null` (modelled `Option α`): the returned
`result[0]` may itself be `null`, in which case it is returned as-is and is
the same value that signals failure. -/
def parseNullable (p : Parser (Option α)) (input : Input) : Option α :=
  match p input with
  | none => none
  | some (v, remaining) => if trimJs remaining = [] then v else none

/-! ## Repetition engine (`repetition.ts`) -/

/-- The `while (true)` loop of `many` (`repetition.ts` lines 7-26), with fuel.
Each iteration: run the parser; on failure stop; if the success consumed
nothing (`result[1] === remaining`) stop (the explicit progress check of the
source); otherwise collect the value and continue on the new remainder.
`none` means the fuel ran out while the source loop would still be running. -/
def manyGo (p : Parser α) : Nat → List α → Input → Option (List α × Input)
  | 0, _, _ => none
  | fuel + 1, acc, remaining =>
    match p remaining with
    | none => success acc.reverse remaining
    | some (v, rest) =>
      if rest = remaining then success acc.reverse remaining
      else manyGo p fuel (v :: acc) rest

/-- `many(parser)` from `repetition.ts` lines 7-26: zero or more occurrences,
stopping at the first failure or the first zero-consumption success. -/
def many (p : Parser α) : Parser (List α) := fun input =>
  manyGo p (input.length + 1) [] input

/-- `many1(parser)` from `repetition.ts` lines 31-39: one occurrence followed
by `many`. -/
def many1 (p : Parser α) : Parser (List α) := fun input =>
  match p input with
  | none => failure
  | some (v, rest) =>
    match many p rest with
    | none => failure
    | some (vs, remaining) => success (v :: vs) remaining

/-- `optionalMaybe(parser)` from `repetition.ts` lines 105-110: absorb failure
into a `null` value (modelled `none`) without consuming input. -/
def optionalMaybe (p : Parser α) : Parser (Option α) := fun input =>
  match p input with
  | none => success none input
  | some (v, rest) => success (some v) rest

/-! ## Separator/terminator combinators (`separators.ts`) -/

/-- The `while (true)` loop of `sepBy` (`separators.ts`), with fuel.  Each
iteration: try the separator; if it fails stop; try the item after it; if the
item fails stop *without consuming the separator* (the backtracking rule);
otherwise collect and continue.  Note that, unlike `many`, this loop has no
zero-consumption progress check; `none` means the fuel ran out while the
source loop would still be running. -/
def sepByGo (p : Parser α) (sep : Parser β) :
    Nat → List α → Input → Option (List α × Input)
  | 0, _, _ => none
  | fuel + 1, acc, remaining =>
    match sep remaining with
    | none => success acc.reverse remaining
    | some (_, r1) =>
      match p r1 with
      | none => success acc.reverse remaining
      | some (v, r2) => sepByGo p sep fuel (v :: acc) r2

/-- `sepBy(parser, separator)` from `separators.ts`: zero or more items
separated by `sep`; an unmatched trailing separator is left unconsumed. -/
def sepBy (p : Parser α) (sep : Parser β) : Parser (List α) := fun input =>
  match p input with
  | none => success [] input
  | some (v, rest) => sepByGo p sep (rest.length + 1) [v] rest

/-- `endBy(parser, terminator)` from `separators.ts` lines 96-97:
`many(map(sequence(parser, terminator), ([value]) => value))`. -/
def endBy (p : Parser α) (t : Parser β) : Parser (List α) :=
  many (mapP (seq2 p t) Prod.fst)

/-- `endBy1(parser, terminator)` from `separators.ts` lines 99-100:
`many1(map(sequence(parser, terminator), ([value]) => value))`. -/
def endBy1 (p : Parser α) (t : Parser β) : Parser (List α) :=
  many1 (mapP (seq2 p t) Prod.fst)

/-! ## Operator-precedence combinators (`operators.ts`) -/

/-- The `while (true)` loop of `leftAssoc` (`operators.ts` lines 11-20), with
fuel: repeatedly parse an operator and a further term, folding
`accumulator = op(accumulator, nextTerm)`; stop as soon as either fails. -/
def leftAssocGo (term : Parser α) (op : Parser (α → α → α)) :
    Nat → α → Input → Option (α × Input)
  | 0, _, _ => none
  | fuel + 1, acc, remaining =>
    match op remaining with
    | none => success acc remaining
    | some (f, r1) =>
      match term r1 with
      | none => success acc remaining
      | some (v, r2) => leftAssocGo term op fuel (f acc v) r2

/-- `leftAssoc(term, operator)` from `operators.ts` lines 4-23. -/
def leftAssoc (term : Parser α) (op : Parser (α → α → α)) : Parser α :=
  fun input =>
    match term input with
    | none => failure
    | some (v, rest) => leftAssocGo term op (rest.length + 1) v rest

/-- `rightAssoc(term, operator)` from `operators.ts` lines 25-42, with fuel for
the recursive self-call: parse a term; if an operator and a recursive
right-associative parse follow, combine as `op(term, recursiveResult)`,
otherwise return just the term. -/
def rightAssocGo (term : Parser α) (op : Parser (α → α → α)) :
    Nat → Input → Option (α × Input)
  | 0, _ => none
  | fuel + 1, input =>
    match term input with
    | none => failure
    | some (lv, remaining) =>
      match op remaining with
      | none => success lv remaining
      | some (f, r1) =>
        match rightAssocGo term op fuel r1 with
        | none => success lv remaining
        | some (rv, r2) => success (f lv rv) r2

/-- `rightAssoc(term, operator)` from `operators.ts` lines 25-42. -/
def rightAssoc (term : Parser α) (op : Parser (α → α → α)) : Parser α :=
  fun input => rightAssocGo term op (input.length + 1) input

/-- The collection loop of `prefix` (`operators.ts` lines 69-74), with fuel:
greedily collect unary operator functions (in source order). -/
def prefixGo (op : Parser (α → α)) :
    Nat → List (α → α) → Input → Option (List (α → α) × Input)
  | 0, _, _ => none
  | fuel + 1, acc, remaining =>
    match op remaining with
    | none => success acc.reverse remaining
    | some (f, rest) => prefixGo op fuel (f :: acc) rest

/-- `prefix(operator, atom)` from `operators.ts` lines 64-82: collect zero or
more prefix operators, parse the atom, then apply the operators via
`operators.reduceRight((value, op) => op(value), atomValue)` — i.e. the
operator collected last (closest to the atom) is applied first. -/
def prefixOp (op : Parser (α → α)) (atom : Parser α) : Parser α := fun input =>
  match prefixGo op (input.length + 1) [] input with
  | none => none
  | some (ops, remaining) =>
    match atom remaining with
    | none => failure
    | some (v, rest) => success (ops.foldr (fun f acc => f acc) v) rest

/-- The application loop of `postfix` (`operators.ts` lines 91-96), with fuel:
apply each parsed postfix operator to the value as it is encountered. -/
def postfixGo (op : Parser (α → α)) : Nat → α → Input → Option (α × Input)
  | 0, _, _ => none
  | fuel + 1, v, remaining =>
    match op remaining with
    | none => success v remaining
    | some (f, rest) => postfixGo op fuel (f v) rest

/-- `postfix(atom, operator)` from `operators.ts` lines 84-99: parse the atom,
then greedily apply postfix operators left-to-right. -/
def postfixOp (atom : Parser α) (op : Parser (α → α)) : Parser α := fun input =>
  match atom input with
  | none => failure
  | some (v, rest) => postfixGo op (rest.length + 1) v rest

/-! ## Grammar / recursion support (`core.ts` `grammar`, `combinators.ts`
`lazy`) -/

/-- The memoised realisation of one grammar rule (`core.ts` lines 21-23:
`lazy(() => cache[key] ??= definitions[key]())`), observed over a sequence of
invocations: `forceN thunk n` is the pair of the cache cell contents and the
number of times the thunk has actually been invoked after `n` forced
accesses, starting from the empty cache. -/
def forceN (thunk : Unit → Parser α) : Nat → Option (Parser α) × Nat
  | 0 => (none, 0)
  | n + 1 =>
    match forceN thunk n with
    | (none, k) => (some (thunk ()), k + 1)
    | (some p, k) => (some p, k)

/-- Running the rule's parser on the `n`-th invocation: force the cache
(`forceN`) and apply the realised parser, as the `lazy` wrapper does. -/
def invokeAt (thunk : Unit → Parser α) (n : Nat) (input : Input) :
    Option (α × Input) :=
  match (forceN thunk n).1 with
  | some p => p input
  | none => none

/-- A grammar rule defined in terms of itself through `lazy`/`grammar`:
the nested-parentheses rule
`expr = choice(between(char('('), lazy(() => expr), char(')')), literal("x"))`,
realised as the recursive parser it denotes (recursion is on the parse-time
input, which shrinks under the consumed `'('`, so the definition is by
structural recursion — the construction involves no infinite regress). -/
def exprP : Input → Option (Input × Input)
  | [] => literal (str "x") []
  | c :: rest =>
    if c = '(' then
      match exprP rest with
      | some (v, ')' :: r2) => success v r2
      | _ => literal (str "x") (c :: rest)
    else literal (str "x") (c :: rest)

/-! ## Example parsers used by the spec's testable properties -/

/-- The subtraction operator parser of the spec's associativity test:
`'-'` mapped to the binary function `(a, b) => a - b`. -/
def subOp : Parser (Nat → Nat → Nat) :=
  mapP (charOk '-') (fun _ => fun a b => a - b)

/-- The unary negation prefix operator of the spec's `"--5"` test. -/
def negOp : Parser (Int → Int) := mapP (charOk '-') (fun _ => fun v => -v)

/-- `naturalNumber` viewed as an integer-valued atom (for `prefixOp` with
negation). -/
def natInt : Parser Int := mapP naturalNumber Int.ofNat

/-- The postfix operators of the spec's `"3²!"` test: `'²'` squares, `'!'`
takes the factorial. -/
def sqFactOps : Parser (Nat → Nat) :=
  choice [mapP (charOk '²') (fun _ => fun v => v * v),
          mapP (charOk '!') (fun _ => Nat.factorial)]

/-- A unary-operator parser taking two arbitrary functions: `'f'` maps to
`f`, `'g'` maps to `g`.  Used to observe the application order of collected
prefix/postfix operators. -/
def fgOps (f g : Nat → Nat) : Parser (Nat → Nat) :=
  choice [mapP (charOk 'f') (fun _ => f), mapP (charOk 'g') (fun _ => g)]

/-- The parser that always succeeds consuming nothing (value `()`), the
sub-parser of spec §8's progress-guarantee property. -/
def epsU : Parser Unit := fun s => success () s

/-! ## Well-behavedness predicates

Spec §3 invariant 2: on success, `remaining` is always a suffix of the input.
All parsers of the library satisfy it; the fuelled loop models terminate with
the supplied `input.length + 1` fuel exactly on parsers that do. -/

/-- A parser only ever returns suffixes of its input. -/
def SuffixP (p : Parser α) : Prop :=
  ∀ input v rest, p input = some (v, rest) → rest <:+ input

/-- A parser strictly consumes input on every success. -/
def ConsumingP (p : Parser α) : Prop :=
  ∀ input v rest, p input = some (v, rest) → rest.length < input.length

theorem suffix_ne_length_lt {rest remaining : Input}
    (h : rest <:+ remaining) (hne : rest ≠ remaining) :
    rest.length < remaining.length :=
  lt_of_le_of_ne h.length_le (fun he => hne (h.eq_of_length he))

theorem charOk_suffix (c : Char) : SuffixP (charOk c) := by
  intro input v rest h
  cases input with
  | nil => simp [charOk, failure] at h
  | cons x xs =>
    by_cases hx : x = c
    · simp [charOk, hx, success] at h
      obtain ⟨h1, h2⟩ := h
      subst h2
      exact List.suffix_cons x xs
    · simp [charOk, hx, failure] at h

theorem charOk_consuming (c : Char) : ConsumingP (charOk c) := by
  intro input v rest h
  cases input with
  | nil => simp [charOk, failure] at h
  | cons x xs =>
    by_cases hx : x = c
    · simp [charOk, hx, success] at h
      obtain ⟨h1, h2⟩ := h
      subst h2
      simp
    · simp [charOk, hx, failure] at h

theorem mapP_suffix {p : Parser α} (f : α → β) (hp : SuffixP p) :
    SuffixP (mapP p f) := by
  intro input v rest h
  cases hres : p input with
  | none => simp [mapP, hres, failure] at h
  | some vr =>
    obtain ⟨w, r⟩ := vr
    simp [mapP, hres, success] at h
    exact h.2 ▸ hp input w r hres

theorem seq2_suffix {p : Parser α} {q : Parser β}
    (hp : SuffixP p) (hq : SuffixP q) : SuffixP (seq2 p q) := by
  intro input v rest h
  cases hres : p input with
  | none => simp [seq2, hres, failure] at h
  | some ar =>
    obtain ⟨a, r1⟩ := ar
    cases hres2 : q r1 with
    | none => simp [seq2, hres, hres2, failure] at h
    | some br =>
      obtain ⟨b, r2⟩ := br
      simp [seq2, hres, hres2, success] at h
      exact h.2 ▸ ((hq r1 b r2 hres2).trans (hp input a r1 hres))

theorem naturalNumber_suffix : SuffixP naturalNumber := by
  intro input v rest h
  simp only [naturalNumber, failure, success] at h
  by_cases he : (input.takeWhile Char.isDigit).isEmpty
  · simp [he] at h
  · simp [he] at h
    exact h.2 ▸ List.drop_suffix _ _

theorem naturalNumber_consuming : ConsumingP naturalNumber := by
  intro input v rest h
  simp only [naturalNumber, failure, success] at h
  by_cases he : (input.takeWhile Char.isDigit).isEmpty
  · simp [he] at h
  · simp [he] at h
    have hlen : (input.takeWhile Char.isDigit).length ≤ input.length :=
      (List.takeWhile_prefix _).length_le
    have hpos : 0 < (input.takeWhile Char.isDigit).length := by
      cases hw : input.takeWhile Char.isDigit with
      | nil => rw [hw] at he; simp at he
      | cons a l => simp [hw]
    rw [← h.2]
    simp only [List.length_drop]
    omega

theorem subOp_suffix : SuffixP subOp := mapP_suffix _ (charOk_suffix '-')

/-! ## Loop lemmas -/

/-- `many`'s loop always terminates with a success, given enough fuel, when
the sub-parser only returns suffixes: either the sub-parser fails, or it
makes no progress (caught by the progress check), or the remainder strictly
shrinks. -/
theorem manyGo_isSome {p : Parser α} (hp : SuffixP p) :
    ∀ fuel (acc : List α) (remaining : Input),
      remaining.length < fuel → (manyGo p fuel acc remaining).isSome := by
  intro fuel
  induction fuel with
  | zero => intro acc remaining h; omega
  | succ n ih =>
    intro acc remaining h
    rw [manyGo]
    cases hres : p remaining with
    | none => simp [success]
    | some vr =>
      obtain ⟨v, rest⟩ := vr
      by_cases heq : rest = remaining
      · simp [heq, success]
      · have hlt : rest.length < remaining.length :=
          suffix_ne_length_lt (hp remaining v rest hres) heq
        simp only [heq, if_false]
        exact ih (v :: acc) rest (by omega)

/-- `leftAssoc`'s loop always terminates with a success, given enough fuel,
when the operator returns suffixes and the term strictly consumes. -/
theorem leftAssocGo_isSome {term : Parser α} {op : Parser (α → α → α)}
    (hop : SuffixP op) (hterm : ConsumingP term) :
    ∀ fuel (acc : α) (remaining : Input),
      remaining.length < fuel →
      (leftAssocGo term op fuel acc remaining).isSome := by
  intro fuel
  induction fuel with
  | zero => intro acc remaining h; omega
  | succ n ih =>
    intro acc remaining h
    rw [leftAssocGo]
    cases hres : op remaining with
    | none => simp [success]
    | some fr =>
      obtain ⟨f, r1⟩ := fr
      cases hres2 : term r1 with
      | none => simp [hres2, success]
      | some vr =>
        obtain ⟨v, r2⟩ := vr
        have h1 : r1.length ≤ remaining.length :=
          (hop remaining f r1 hres).length_le
        have h2 : r2.length < r1.length := hterm r1 v r2 hres2
        simp only [hres2]
        exact ih (f acc v) r2 (by omega)

/-- Invariant of `sepBy`'s loop: whenever it returns, the remainder it
reports is a point where either the separator fails, or the separator
matches but no item follows — the separator is never consumed without a
following item. -/
theorem sepByGo_no_dangling {p : Parser α} {sep : Parser β} :
    ∀ fuel (acc : List α) (remaining : Input) vs rem,
      sepByGo p sep fuel acc remaining = some (vs, rem) →
      ∀ w r1, sep rem = some (w, r1) → p r1 = none := by
  intro fuel
  induction fuel with
  | zero => intro acc remaining vs rem h; simp [sepByGo] at h
  | succ n ih =>
    intro acc remaining vs rem h w r1 hsep
    rw [sepByGo] at h
    cases hres : sep remaining with
    | none =>
      rw [hres] at h
      simp [success] at h
      rw [h.2] at hres
      rw [hres] at hsep
      exact absurd hsep (by simp)
    | some wr =>
      obtain ⟨w0, r10⟩ := wr
      rw [hres] at h
      cases hres2 : p r10 with
      | none =>
        simp only [hres2, success] at h
        obtain ⟨h1, h2⟩ := Option.some.inj h |> Prod.mk.inj
        rw [← h2] at hsep
        rw [hres] at hsep
        obtain ⟨h3, h4⟩ := Option.some.inj hsep |> Prod.mk.inj
        rw [← h4]
        exact hres2
      | some vr =>
        obtain ⟨v, r2⟩ := vr
        simp only [hres2] at h
        exact ih (v :: acc) r2 vs rem h w r1 hsep

/-- With both sub-parsers succeeding without consuming, `sepBy`'s loop never
leaves its state: no amount of fuel makes it return. -/
theorem sepByGo_eps_none :
    ∀ fuel (acc : List Unit) (rem : Input),
      sepByGo epsU epsU fuel acc rem = none := by
  intro fuel
  induction fuel with
  | zero => intro acc rem; rfl
  | succ n ih => intro acc rem; rw [sepByGo]; exact ih (() :: acc) rem

/-! ## Grammar cache lemmas -/

/-- The cache cell of a rule is in one of exactly two states: untouched with
zero thunk calls, or populated with the (unique) realised parser after one
thunk call. -/
theorem forceN_inv (thunk : Unit → Parser α) :
    ∀ n, forceN thunk n = (none, 0) ∨ forceN thunk n = (some (thunk ()), 1) := by
  intro n
  induction n with
  | zero => left; rfl
  | succ m ih =>
    right
    rcases ih with h | h <;> rw [forceN, h]

/-! ## Claim theorems -/

/-- Claim C1, amended.  The zero-length-consumption progress check is
implemented by `many` (and inherited by `many1`): for every parser `p` that
always succeeds consuming nothing and every input, `many p` terminates and
returns the empty list with the input unchanged, and `many1 p` terminates and
returns a single-element list with the input unchanged.  (The separator
combinators `sepBy`/`interleaved` have no such check; see the accompanying
counterexample for `sepBy`.) -/
theorem claim1_many_progress_check (α : Type) (p : Parser α)
    (hp : ∀ s, ∃ v, p s = some (v, s)) (input : Input) :
    many p input = some ([], input) ∧
      ∃ v, many1 p input = some ([v], input) := by
  have hmany : ∀ s : Input, many p s = some ([], s) := by
    intro s
    obtain ⟨v, hv⟩ := hp s
    rw [many, manyGo, hv]
    simp [success]
  refine ⟨hmany input, ?_⟩
  obtain ⟨v, hv⟩ := hp input
  refine ⟨v, ?_⟩
  rw [many1, hv]
  simp [hmany input, success]

/-- Witness for C1's theorem at the concrete zero-consuming parser `epsU` and
input `"ab"`. -/
theorem claim1_witness :
    many epsU (str "ab") = some ([], str "ab") ∧
      ∃ v, many1 epsU (str "ab") = some ([v], str "ab") :=
  claim1_many_progress_check Unit epsU (fun _ => ⟨(), rfl⟩) (str "ab")

/-- Counterexample to claim C1 as stated: `sepBy` does not detect
zero-length-consuming successes.  With an item parser and a separator parser
that both always succeed consuming nothing, its loop (entered here in the
state reached on input `"x"` after the first item) never returns, however
much fuel it is given — the source's `while (true)` loop runs forever. -/
theorem claim1_sepBy_counterexample :
    ¬ ∃ fuel, (sepByGo epsU epsU fuel [()] (str "x")).isSome := by
  intro ⟨fuel, hf⟩
  rw [sepByGo_eps_none fuel [()] (str "x")] at hf
  simp at hf

/-- Claim C2.  `sepBy` never consumes a separator that is not followed by a
successful item: whenever it succeeds having collected at least one item, if
the separator matches at the reported remainder then the item parser fails
right after it (the loop backtracked to just before that separator).
Concretely, `sepBy(naturalNumber, char(','))` on `"1,2,"` succeeds with
`[1, 2]` leaving `","` unconsumed. -/
theorem claim2_sepBy_backtracks :
    (∀ (α β : Type) (p : Parser α) (sep : Parser β) input vs rem,
      sepBy p sep input = some (vs, rem) → vs ≠ [] →
      ∀ w r1, sep rem = some (w, r1) → p r1 = none) ∧
    sepBy naturalNumber (charOk ',') (str "1,2,") = some ([1, 2], str ",") := by
  constructor
  · intro α β p sep input vs rem h hne w r1 hsep
    rw [sepBy] at h
    cases hres : p input with
    | none =>
      rw [hres] at h
      simp [success] at h
      exact absurd h.1 hne
    | some vr =>
      obtain ⟨v, rest⟩ := vr
      rw [hres] at h
      exact sepByGo_no_dangling (rest.length + 1) [v] rest vs rem h w r1 hsep
  · decide

/-- Witness for C2's theorem at `sepBy(naturalNumber, char(','))` on
`"1,2,"`: the separator matches at the remainder `","` and the item parser
indeed fails after it. -/
theorem claim2_witness :
    sepBy naturalNumber (charOk ',') (str "1,2,") = some ([1, 2], str ",") ∧
      charOk ',' (str ",") = some (',', []) ∧
      naturalNumber [] = none :=
  ⟨by decide, by decide,
    claim2_sepBy_backtracks.1 Nat Char naturalNumber (charOk ',')
      (str "1,2,") [1, 2] (str ",") (by decide) (by decide) ',' []
      (by decide)⟩

/-- Claim C3.  The top-level `parse` returns the parsed value exactly when
the parser succeeds and the remaining input trims to the empty string, and
returns the failure indicator otherwise; concretely,
`parse(literal("hello"), "hello   ")` succeeds with `"hello"` and
`parse(literal("hello"), "hello world")` fails. -/
theorem claim3_parse_whitespace_rule :
    (∀ (α : Type) (p : Parser α) (input : Input) (v : α),
      parse p input = some v ↔
        ∃ rem, p input = some (v, rem) ∧ trimJs rem = []) ∧
    parse (literal (str "hello")) (str "hello   ") = some (str "hello") ∧
    parse (literal (str "hello")) (str "hello world") = none := by
  refine ⟨?_, by decide, by decide⟩
  intro α p input v
  cases hres : p input with
  | none => simp [parse, hres]
  | some wr =>
    obtain ⟨w, rem⟩ := wr
    simp only [parse, hres]
    by_cases ht : trimJs rem = []
    · rw [if_pos ht]
      constructor
      · intro h
        exact ⟨rem, by rw [Option.some.inj h], ht⟩
      · rintro ⟨rem', hp', ht'⟩
        have hv : w = v := congrArg Prod.fst (Option.some.inj hp')
        rw [hv]
    · rw [if_neg ht]
      constructor
      · intro h
        exact absurd h (by simp)
      · rintro ⟨rem', hp', ht'⟩
        have hr : rem = rem' := congrArg Prod.snd (Option.some.inj hp')
        rw [hr] at ht
        exact absurd ht' ht

/-- Claim C4.  `char` rejects a multi-character argument at construction time
with a descriptive error and accepts every single-character argument;
`regex` rejects a global-flagged pattern at construction time with a
descriptive error and accepts every non-global pattern. -/
theorem claim4_construction_validation :
    (∀ s : Input, 1 < s.length →
      charCons s =
        Except.error ("char expects one character, but got " ++ String.mk s)) ∧
    (∀ s : Input, s.length = 1 → isOkE (charCons s) = true) ∧
    (∀ r : RegExpM, r.global = true →
      regexCons r =
        Except.error "Global flag is not supported in regex parsers") ∧
    (∀ r : RegExpM, r.global = false → isOkE (regexCons r) = true) := by
  refine ⟨?_, ?_, ?_, ?_⟩
  · intro s h
    rw [charCons, if_pos h]
  · intro s h
    rw [charCons, if_neg (by omega)]
    rfl
  · intro r h
    rw [regexCons, if_pos h]
  · intro r h
    rw [regexCons, if_neg (by simp [h])]
    rfl

/-- Witness for C4's theorem: `char("ab")` errors, `char("a")` constructs,
`regex` with a global pattern errors, `regex` with a non-global pattern
constructs. -/
theorem claim4_witness :
    charCons (str "ab") =
        Except.error ("char expects one character, but got " ++
          String.mk (str "ab")) ∧
      isOkE (charCons (str "a")) = true ∧
      regexCons ⟨true, fun _ => none⟩ =
        Except.error "Global flag is not supported in regex parsers" ∧
      isOkE (regexCons ⟨false, fun _ => none⟩) = true :=
  ⟨claim4_construction_validation.1 (str "ab") (by decide),
    claim4_construction_validation.2.1 (str "a") (by decide),
    claim4_construction_validation.2.2.1 ⟨true, fun _ => none⟩ rfl,
    claim4_construction_validation.2.2.2 ⟨false, fun _ => none⟩ rfl⟩

/-- Claim C5.  `leftAssoc` never fails once the first term succeeds (for a
suffix-respecting operator and a consuming term, which is what makes its
loop finish); and associativity is folded as specified: with a natural-number
term and the subtraction operator, `leftAssoc` on `"10-3-2"` yields `5`
(i.e. `(10-3)-2`) and `rightAssoc` yields `9` (i.e. `10-(3-2)`), both
consuming the whole input. -/
theorem claim5_associativity :
    (∀ (α : Type) (term : Parser α) (op : Parser (α → α → α)) input v rest,
      SuffixP op → ConsumingP term → term input = some (v, rest) →
      (leftAssoc term op input).isSome = true) ∧
    leftAssoc naturalNumber subOp (str "10-3-2") = some (5, []) ∧
    rightAssoc naturalNumber subOp (str "10-3-2") = some (9, []) := by
  refine ⟨?_, by decide, by decide⟩
  intro α term op input v rest hop hterm hfirst
  rw [leftAssoc, hfirst]
  exact leftAssocGo_isSome hop hterm (rest.length + 1) v rest (by omega)

/-- Witness for C5's theorem at `leftAssoc(naturalNumber, subOp)` on
`"10-3-2"`: the operator is suffix-respecting, the term is consuming, the
first term succeeds, and the combinator indeed succeeds. -/
theorem claim5_witness :
    naturalNumber (str "10-3-2") = some (10, str "-3-2") ∧
      (leftAssoc naturalNumber subOp (str "10-3-2")).isSome = true :=
  ⟨by decide,
    claim5_associativity.1 Nat naturalNumber subOp (str "10-3-2") 10
      (str "-3-2") subOp_suffix naturalNumber_consuming (by decide)⟩

/-- Claim C6.  `prefix` applies the collected prefix operators right-to-left
(the operator closest to the atom first): with `'f' ↦ f` and `'g' ↦ g`,
input `"fg5"` yields `f (g 5)` for arbitrary `f`, `g`; with negation,
`"--5"` yields `5`.  `postfix` applies collected postfix operators
left-to-right: `"5fg"` yields `g (f 5)` for arbitrary `f`, `g`, and with
squaring and factorial, `"3²!"` yields `362880 = (3²)!`. -/
theorem claim6_prefix_postfix_order :
    (∀ f g : Nat → Nat,
      prefixOp (fgOps f g) naturalNumber (str "fg5") = some (f (g 5), [])) ∧
    prefixOp negOp natInt (str "--5") = some ((5 : Int), []) ∧
    (∀ f g : Nat → Nat,
      postfixOp naturalNumber (fgOps f g) (str "5fg") = some (g (f 5), [])) ∧
    postfixOp naturalNumber sqFactOps (str "3²!") = some (362880, []) := by
  refine ⟨?_, by decide, ?_, by decide⟩
  · intro f g
    rfl
  · intro f g
    rfl

/-- Claim C7.  `endBy` accepts only items followed by their terminator: it
never fails (an unterminated trailing item is left in the remainder), and
concretely `endBy(naturalNumber, char(';'))` on `"1;2;3"` yields `[1, 2]`
with the unterminated `"3"` left unconsumed; `endBy1` fails exactly when no
terminated item can be collected, e.g. on `"5"`. -/
theorem claim7_endBy :
    (∀ (α β : Type) (p : Parser α) (t : Parser β) (input : Input),
      SuffixP p → SuffixP t → (endBy p t input).isSome = true) ∧
    (∀ (α β : Type) (p : Parser α) (t : Parser β) (input : Input),
      SuffixP p → SuffixP t →
      (endBy1 p t input = none ↔ mapP (seq2 p t) Prod.fst input = none)) ∧
    endBy naturalNumber (charOk ';') (str "1;2;3") = some ([1, 2], str "3") ∧
    endBy1 naturalNumber (charOk ';') (str "5") = none := by
  refine ⟨?_, ?_, by decide, by decide⟩
  · intro α β p t input hp ht
    exact manyGo_isSome (mapP_suffix _ (seq2_suffix hp ht)) (input.length + 1)
      [] input (by omega)
  · intro α β p t input hp ht
    constructor
    · intro h
      cases hq : mapP (seq2 p t) Prod.fst input with
      | none => rfl
      | some vr =>
        obtain ⟨v, rest⟩ := vr
        rw [endBy1, many1, hq] at h
        have hm : (many (mapP (seq2 p t) Prod.fst) rest).isSome = true :=
          manyGo_isSome (mapP_suffix _ (seq2_suffix hp ht)) (rest.length + 1)
            [] rest (by omega)
        cases hmm : many (mapP (seq2 p t) Prod.fst) rest with
        | none => rw [hmm] at hm; simp at hm
        | some vsr =>
          obtain ⟨vs, remaining⟩ := vsr
          simp [hmm, success] at h
    · intro h
      rw [endBy1, many1, h]
      rfl

/-- Witness for C7's theorem at `endBy(naturalNumber, char(';'))`: the
sub-parsers are suffix-respecting, `endBy` on `"1;2"` succeeds, and the
`endBy1` failure criterion holds on `"5"`. -/
theorem claim7_witness :
    (endBy naturalNumber (charOk ';') (str "1;2")).isSome = true ∧
      (endBy1 naturalNumber (charOk ';') (str "5") = none ↔
        mapP (seq2 naturalNumber (charOk ';')) Prod.fst (str "5") = none) :=
  ⟨claim7_endBy.1 Nat Char naturalNumber (charOk ';') (str "1;2")
      naturalNumber_suffix (charOk_suffix ';'),
    claim7_endBy.2.1 Nat Char naturalNumber (charOk ';') (str "5")
      naturalNumber_suffix (charOk_suffix ';')⟩

/-- Claim C8.  Grammar rule memoisation: over any number of forced accesses
to a rule's `lazy` wrapper, the thunk is invoked at most once, and from the
first access on the cache holds exactly the once-realised parser, which is
reused ever after.  A rule defined in terms of itself through `lazy` is
constructible (the recursive parser `exprP` is a well-founded definition)
and parses the recursive structure `"(((x)))"` down to `"x"`, consuming all
input. -/
theorem claim8_grammar_memoisation :
    (∀ (α : Type) (thunk : Unit → Parser α) (n : Nat),
      (forceN thunk n).2 ≤ 1) ∧
    (∀ (α : Type) (thunk : Unit → Parser α) (n : Nat),
      (forceN thunk (n + 1)).1 = some (thunk ())) ∧
    exprP (str "(((x)))") = some (str "x", []) := by
  refine ⟨?_, ?_, by decide⟩
  · intro α thunk n
    rcases forceN_inv thunk n with h | h <;> simp [h]
  · intro α thunk n
    rcases forceN_inv thunk (n + 1) with h | h
    · rw [forceN] at h
      rcases forceN_inv thunk n with h2 | h2 <;> simp [h2] at h
    · rw [h]

/-- Claim C9.  Referential transparency of parser invocation: every parser
value of the embedding is a pure function, and the grammar rules' write-once
cache does not affect observable behaviour — the result of running a rule's
parser on an input is the same on every invocation (whatever the number of
earlier invocations that may or may not have populated the cache), and
always equals the result of the pristine realised parser. -/
theorem claim9_referential_transparency :
    ∀ (α : Type) (thunk : Unit → Parser α) (n m : Nat) (input : Input),
      invokeAt thunk (n + 1) input = thunk () input ∧
      invokeAt thunk (n + 1) input = invokeAt thunk (m + 1) input := by
  have key : ∀ (α : Type) (thunk : Unit → Parser α) (n : Nat) (input : Input),
      invokeAt thunk (n + 1) input = thunk () input := by
    intro α thunk n input
    rw [invokeAt]
    rcases forceN_inv thunk (n + 1) with h | h
    · rw [forceN] at h
      rcases forceN_inv thunk n with h2 | h2 <;> simp [h2] at h
    · rw [h]
  intro α thunk n m input
  exact ⟨key α thunk n input, (key α thunk n input).trans (key α thunk m input).symm⟩

/-- Claim C10.  At the top-level entry point a successful parse whose value
is `null` is indistinguishable from failure: whenever a (nullable-valued)
parser succeeds with value `null` and a remainder that trims to empty,
`parse` returns `null` — exactly what it returns for a failing parser.
Concretely this happens for `eof` on the empty input and for
`optionalMaybe` of a failing parser. -/
theorem claim10_null_collapse :
    (∀ (α : Type) (p : Parser (Option α)) (input rem : Input),
      p input = some (none, rem) → trimJs rem = [] →
      parseNullable p input = none) ∧
    (∀ (α : Type) (input : Input),
      parseNullable (failP (α := Option α)) input = none) ∧
    parseNullable (eof (α := Unit)) [] = none ∧
    parseNullable (optionalMaybe (failP (α := Nat))) [] = none := by
  refine ⟨?_, ?_, by decide, by decide⟩
  · intro α p input rem h ht
    simp [parseNullable, h, ht]
  · intro α input
    rfl

/-- Witness for C10's theorem at `eof` on empty input: `eof` succeeds with
the `null` value and the empty remainder, and `parse` collapses it to the
failure result. -/
theorem claim10_witness :
    eof (α := Unit) [] = some (none, []) ∧ trimJs [] = [] ∧
      parseNullable (eof (α := Unit)) [] = none :=
  ⟨by decide, by decide,
    claim10_null_collapse.1 Unit (eof (α := Unit)) [] [] (by decide)
      (by decide)⟩

end Unitas
